import Mathlib

set_option maxHeartbeats 1000000

/-! Shallow embedding of the semantic-version library of
coffee377/automation-cli (`src/lib/version/semver.go`).

Go strings are modelled as `List Char`, Go `uint64` as `Nat` with explicit
reduction modulo `2 ^ 64` where the Go arithmetic can wrap and saturation
where `strconv.ParseUint` saturates, Go slices as `List`, and a Go runtime
panic (an out-of-range slice index) as `none` in an `Option` result.

Pieces of the repository that `semver.go` uses but that are not under
`src/` (the `Identifier` constructor and comparison, `parseIdentifiers`,
the `VerReg` grammar regular expression, and `compareVersion`) are
modelled from the spec; each such definition carries a doc comment
starting with `Modelled from the spec:`. -/

/-- Width of Go's `uint64`: values live below this bound. -/
def u64Size : Nat := 2 ^ 64

/-- Largest `uint64` value, `2 ^ 64 - 1`. -/
def u64Max : Nat := 2 ^ 64 - 1

/-- Numeric value of an ASCII digit character. -/
def dval (c : Char) : Nat := c.toNat - 48

/-- ASCII digit test (`0` .. `9`). -/
def isDigitChar (c : Char) : Bool := 48 ≤ c.toNat && c.toNat ≤ 57

/-- Value of a decimal digit string, most significant digit first. -/
def digitsToNat (s : List Char) : Nat := s.foldl (fun a c => 10 * a + dval c) 0

/-- Models Go `strconv.ParseUint(s, 10, 64)` on an all-digit string: the
returned value is the parsed number, saturated to `2 ^ 64 - 1` when it is
out of range (Go returns `MaxUint64` together with `ErrRange`); the second
component is `true` exactly when the Go error is `nil`. -/
def parseUint64 (s : List Char) : Nat × Bool :=
  if digitsToNat s < u64Size then (digitsToNat s, true) else (u64Max, false)

/-- The ASCII digit character for a value below ten. -/
def digitChar (n : Nat) : Char := Char.ofNat (48 + n)

/-- Fuel-driven core of decimal formatting; with enough fuel it models the
digit loop of Go `strconv.AppendUint`. -/
def natToDigitsCore : Nat → Nat → List Char → List Char
  | 0, _, acc => acc
  | fuel + 1, n, acc =>
    if n < 10 then digitChar n :: acc
    else natToDigitsCore fuel (n / 10) (digitChar (n % 10) :: acc)

/-- Decimal rendering of a natural number (models `strconv.FormatUint` /
`strconv.AppendUint` with base 10). -/
def natToDigits (n : Nat) : List Char := natToDigitsCore (n + 1) n []

/-- One dot-separated token of the pre-release or build part. The fields
mirror the Go struct that `semver.go` consumes: the verbatim token text
`Raw`, the numeric-form flag `IsNumeric`, and the parsed magnitude `Num`. -/
structure Identifier where
  Raw : List Char
  IsNumeric : Bool
  Num : Nat
deriving DecidableEq

/-- Modelled from the spec: `NewIdentifier` (§3, §4.1) is not under `src/`.
It keeps the raw token text verbatim, classifies the token as numeric
exactly when it consists only of ASCII digits, and stores the parsed
magnitude when numeric. -/
def NewIdentifier (token : List Char) : Identifier :=
  if !token.isEmpty && token.all isDigitChar then
    { Raw := token, IsNumeric := true, Num := (parseUint64 token).1 }
  else
    { Raw := token, IsNumeric := false, Num := 0 }

/-- Three-way comparison of natural numbers: `-1`, `0` or `1`. -/
def cmpNat (a b : Nat) : Int := if a < b then -1 else if b < a then 1 else 0

/-- Three-way comparison of characters by code point (ASCII/byte order on
the ASCII range the grammar allows). -/
def cmpChar (a b : Char) : Int := cmpNat a.toNat b.toNat

/-- Generic lexicographic three-way comparison of lists: element-wise until
a difference is found; a strict prefix orders before the longer list. -/
def cmpLex {α : Type} (c : α → α → Int) : List α → List α → Int
  | [], [] => 0
  | [], _ :: _ => -1
  | _ :: _, [] => 1
  | a :: as, b :: bs => if c a b = 0 then cmpLex c as bs else c a b

/-- Modelled from the spec: `Identifier.Compare` (§4.1) is not under
`src/`. Numeric identifiers compare by numeric value, a numeric identifier
always orders before a non-numeric one, and two non-numeric identifiers
compare bytewise on their raw text. -/
def Identifier.Compare (a b : Identifier) : Int :=
  match a.IsNumeric, b.IsNumeric with
  | true, true => cmpNat a.Num b.Num
  | true, false => -1
  | false, true => 1
  | false, false => cmpLex cmpChar a.Raw b.Raw

/-- The five-field version value object of `semver.go`. -/
structure version where
  major : Nat
  minor : Nat
  patch : Nat
  preRelease : List Identifier
  build : List Identifier
deriving DecidableEq

/-- The zero value `version{}` that Go's `parse` returns on failure. -/
def zeroVersion : version :=
  { major := 0, minor := 0, patch := 0, preRelease := [], build := [] }

/-- Split a string at the first occurrence of `sep`: the part before it
and, when the separator occurs at all, the remainder after it. -/
def splitFirst (sep : Char) : List Char → List Char × Option (List Char)
  | [] => ([], none)
  | c :: cs =>
    if c = sep then ([], some cs)
    else
      let r := splitFirst sep cs
      (c :: r.1, r.2)

/-- One step of the dot splitter: prepend character `c` to an already
split tail. -/
def splitOnDotAux (c : Char) : List (List Char) → List (List Char)
  | [] => [[c]]
  | t :: ts => if c = '.' then [] :: t :: ts else (c :: t) :: ts

/-- Split a string on every `.`; always returns at least one (possibly
empty) token. -/
def splitOnDot : List Char → List (List Char)
  | [] => [[]]
  | c :: cs => splitOnDotAux c (splitOnDot cs)

/-- Modelled from the spec: a mandatory numeric capture group of the
grammar (§6) is a non-empty digit string with no leading zero. -/
def numericNZ (s : List Char) : Bool :=
  !s.isEmpty && s.all isDigitChar && (s.length == 1 || s.head? != some '0')

/-- Characters the grammar allows inside pre-release and build tokens:
`[0-9A-Za-z-]`. -/
def identChar (c : Char) : Bool :=
  isDigitChar c || (65 ≤ c.toNat && c.toNat ≤ 90) ||
    (97 ≤ c.toNat && c.toNat ≤ 122) || c == '-'

/-- Modelled from the spec: a pre-release identifier token (§6) is a
non-empty run of `[0-9A-Za-z-]` which, when it is all digits, has no
leading zero. -/
def preIdOk (s : List Char) : Bool :=
  !s.isEmpty && s.all identChar && (!s.all isDigitChar || numericNZ s)

/-- Modelled from the spec: a build identifier token (§6) is a non-empty
run of `[0-9A-Za-z-]`; leading zeros are permitted. -/
def buildIdOk (s : List Char) : Bool := !s.isEmpty && s.all identChar

/-- Validity of the optional pre-release capture group. -/
def preGroupOk : Option (List Char) → Bool
  | none => true
  | some p => (splitOnDot p).all preIdOk

/-- Validity of the optional build capture group. -/
def buildGroupOk : Option (List Char) → Bool
  | none => true
  | some b => (splitOnDot b).all buildIdOk

/-- Modelled from the spec: the opaque grammar validator and capture-group
extractor `VerReg` (§6), which is not under `src/`. It either rejects the
string or yields the five capture groups major, minor, patch, pre-release
and build, the last two empty when absent. The version core is everything
before the first `-` that precedes the first `+`; the pre-release part
runs from that `-` to the `+`; the build part follows the first `+`. -/
def matchSemver (s : List Char) :
    Option (List Char × List Char × List Char × List Char × List Char) :=
  match splitOnDot (splitFirst '-' (splitFirst '+' s).1).1 with
  | [ma, mi, pa] =>
    if numericNZ ma && numericNZ mi && numericNZ pa
        && preGroupOk (splitFirst '-' (splitFirst '+' s).1).2
        && buildGroupOk (splitFirst '+' s).2 then
      some (ma, mi, pa, ((splitFirst '-' (splitFirst '+' s).1).2).getD [],
        ((splitFirst '+' s).2).getD [])
    else none
  | _ => none

/-- Modelled from the spec: `parseIdentifiers` (§4.2) is not under `src/`.
It splits the captured group on `.` and builds one `Identifier` per
token. -/
def parseIdentifiers (s : List Char) : List Identifier :=
  (splitOnDot s).map NewIdentifier

/-- The error message `parse` returns on a grammar mismatch. -/
def parseErrMsg : List Char :=
  ("the version number does not match the semantic version number, " ++
    "please refer to https://semver.org/lang/zh-CN/").data

/-- `parse` from `semver.go`: match the grammar, then read the three
numeric groups with `strconv.ParseUint` — whose error is discarded with
`_`, so an out-of-range group silently saturates — then split the optional
identifier groups. The second component is the Go `error` (`none` =
`nil`). -/
def parse (ver : List Char) : version × Option (List Char) :=
  match matchSemver ver with
  | none => (zeroVersion, some parseErrMsg)
  | some (ma, mi, pa, pre, bld) =>
    ({ major := (parseUint64 ma).1,
       minor := (parseUint64 mi).1,
       patch := (parseUint64 pa).1,
       preRelease := if !pre.isEmpty then parseIdentifiers pre else [],
       build := if !bld.isEmpty then parseIdentifiers bld else [] }, none)

/-- `NewVersion` from `semver.go`: parses, logs on error (the diagnostic
log sink is fire-and-forget and not modelled), and returns the parsed
value regardless — the zero version when parsing failed. -/
def NewVersion (ver : List Char) : version := (parse ver).1

/-- The closed release-kind enumeration of the engine; `pre` is the
internal-only kind. -/
inductive ReleaseType where
  | Major | Minor | Patch | PreMajor | PreMinor | PrePatch | PreRelease | pre
deriving DecidableEq

/-- `isPreRelease` from `semver.go`: a non-empty pre-release sequence marks
a pre-release. -/
def isPreRelease (v : version) : Bool := v.preRelease.length > 0

/-- `resetPreRelease` from `semver.go`. -/
def resetPreRelease (v : version) : version := { v with preRelease := [] }

/-- The `Patch` transition of `Increment`: bump `patch` unless the version
is currently a pre-release, then clear the pre-release. -/
def incPatch (v : version) : version :=
  let v1 := if !isPreRelease v then { v with patch := (v.patch + 1) % u64Size } else v
  resetPreRelease v1

/-- The backward scan of the internal `pre` transition. Go runs
`i := len(v.preRelease); for ; i >= 0; i--` and reads `v.preRelease[i]`
on every iteration, so the very first read is at index `len`, out of
range — modelled as `none` (a runtime panic). On a numeric identifier the
loop replaces it with its value plus one and breaks, yielding the updated
sequence and the index at which it stopped; falling off the front yields
the sequence and `-1`. -/
def scanLoop (pre : List Identifier) (i : Int) : Option (List Identifier × Int) :=
  if 0 ≤ i then
    match pre.get? i.toNat with
    | none => none
    | some idn =>
      if idn.IsNumeric then
        some (pre.set i.toNat (NewIdentifier (natToDigits ((idn.Num + 1) % u64Size))), i)
      else scanLoop pre (i - 1)
  else some (pre, i)
termination_by (i + 1).toNat
decreasing_by omega

/-- The internal `pre` transition of `Increment` from `semver.go`,
including the faulty backward scan (see `scanLoop`) and the tag handling
that the code nests inside the already-a-pre-release branch. -/
def incPre (v : version) (identifier : List Char) (identifierBase : Bool) :
    Option version :=
  let base : List Char := if identifierBase then ['1'] else ['0']
  let preReleaseIdentifiers : List Identifier := [NewIdentifier base]
  if !isPreRelease v then
    some { v with preRelease := preReleaseIdentifiers }
  else
    match scanLoop v.preRelease (Int.ofNat v.preRelease.length) with
    | none => none
    | some (scanned, i) =>
      let afterScan := if i = -1 then scanned ++ [NewIdentifier base] else scanned
      if !identifier.isEmpty then
        let prerelease :=
          if identifierBase then [NewIdentifier identifier, NewIdentifier base]
          else [NewIdentifier identifier]
        match afterScan.get? 0 with
        | none => none
        | some first =>
          if first.Compare (NewIdentifier identifier) = 0 then
            if prerelease.length = 1 then some { v with preRelease := prerelease }
            else some { v with preRelease := afterScan }
          else some { v with preRelease := prerelease }
      else some { v with preRelease := afterScan }

/-- `Increment` from `semver.go`, the release-kind state machine. The Go
receiver is mutated in place and returned; here the transition is a pure
function, `none` standing for a runtime panic inside the transition. -/
def Increment (v : version) (release : ReleaseType) (identifier : List Char)
    (identifierBase : Bool) : Option version :=
  match release with
  | .PreMajor =>
    let v1 := { v with preRelease := [], patch := 0, minor := 0,
                       major := (v.major + 1) % u64Size }
    incPre v1 identifier identifierBase
  | .PreMinor =>
    let v1 := { v with preRelease := [], patch := 0,
                       minor := (v.minor + 1) % u64Size }
    incPre v1 identifier identifierBase
  | .PrePatch =>
    incPre (incPatch { v with preRelease := [] }) identifier identifierBase
  | .PreRelease =>
    incPre (if !isPreRelease v then incPatch v else v) identifier identifierBase
  | .Major =>
    let v1 := if v.minor != 0 || v.patch != 0 || !isPreRelease v then
        { v with major := (v.major + 1) % u64Size }
      else v
    some { v1 with minor := 0, patch := 0, preRelease := [] }
  | .Minor =>
    let v1 := if v.patch != 0 || !isPreRelease v then
        { v with minor := (v.minor + 1) % u64Size }
      else v
    some { v1 with patch := 0, preRelease := [] }
  | .Patch => some (incPatch v)
  | .pre => incPre v identifier identifierBase

/-- The `.`-separated continuation of an identifier sequence rendering
(the loop over the remaining identifiers in Go's `String()`). -/
def joinTail : List Identifier → List Char
  | [] => []
  | y :: ys => '.' :: (y.Raw ++ joinTail ys)

/-- Raw forms of an identifier sequence joined with `.` (first identifier,
then the loop) as Go's `String()` renders them. -/
def joinIdentifiers : List Identifier → List Char
  | [] => []
  | x :: xs => x.Raw ++ joinTail xs

/-- `versionBase` from `semver.go`: `major.minor.patch`. -/
def versionBase (v : version) : List Char :=
  natToDigits v.major ++ '.' :: natToDigits v.minor ++ '.' :: natToDigits v.patch

/-- `String()` from `semver.go`: the base, then — when the sequence is
non-empty — `-` and the pre-release identifiers (first one, then the loop
over the rest, see `joinIdentifiers`), then likewise `+` and the build
identifiers. -/
def version.String (v : version) : List Char :=
  versionBase v
    ++ (if 0 < v.preRelease.length then '-' :: joinIdentifiers v.preRelease
        else [])
    ++ (if 0 < v.build.length then '+' :: joinIdentifiers v.build else [])

/-- `FinalizeVersion()` from `semver.go`: only `major.minor.patch`. -/
def FinalizeVersion (v : version) : List Char := versionBase v

/-- Chain two three-way comparators: the second breaks ties of the
first. -/
def lexc {α : Type} (f g : α → α → Int) (a b : α) : Int :=
  if f a b = 0 then g a b else f a b

/-- Modelled from the spec: the pre-release ordering rule (§4.5) — with
equal numeric triples, an empty pre-release (a release) outranks any
non-empty one; two non-empty sequences compare element-wise, a strict
prefix ordering first. -/
def comparePre : List Identifier → List Identifier → Int
  | [], [] => 0
  | [], _ :: _ => 1
  | _ :: _, [] => -1
  | a, b => cmpLex Identifier.Compare a b

/-- The build-blind part of the comparison: `major`, `minor`, `patch`
numerically, then the pre-release rule. -/
def compareCore : version → version → Int :=
  lexc (fun a b => cmpNat a.major b.major)
    (lexc (fun a b => cmpNat a.minor b.minor)
      (lexc (fun a b => cmpNat a.patch b.patch)
        (fun a b => comparePre a.preRelease b.preRelease)))

/-- Modelled from the spec: `compareVersion` (§4.5) is not under `src/`.
Both modes order by the core comparison; only the build-aware mode
(`ignoreBuild = false`) breaks exact core ties by the build sequences,
element-wise with the strict prefix first. -/
def compareVersion (v other : version) (ignoreBuild : Bool) : Int :=
  if ignoreBuild then compareCore v other
  else lexc compareCore (fun a b => cmpLex Identifier.Compare a.build b.build) v other

/-- `Compare` from `semver.go`: `compareVersion(v, other, true)`. -/
def version.Compare (v other : version) : Int := compareVersion v other true

/-- `CompareWithBuildMeta` from `semver.go`:
`compareVersion(v, other, false)`. -/
def version.CompareWithBuildMeta (v other : version) : Int :=
  compareVersion v other false

/-- The laws of a three-way comparator that make it a total preorder with
`-1`/`0`/`1` results: result trichotomy, antisymmetry, congruence of ties,
and transitivity of strict comparison. -/
structure CmpLaws {α : Type} (c : α → α → Int) : Prop where
  cmp3 : ∀ a b, c a b = -1 ∨ c a b = 0 ∨ c a b = 1
  antisym : ∀ a b, c a b = - c b a
  eq_congr : ∀ a b, c a b = 0 → ∀ d, c a d = c b d
  lt_trans : ∀ a b d, c a b = -1 → c b d = -1 → c a d = -1

theorem cmpLaws_cmpNat : CmpLaws cmpNat := by
  constructor
  · intro a b; unfold cmpNat; split_ifs <;> simp
  · intro a b; unfold cmpNat; split_ifs <;> omega
  · intro a b h d
    have hab : a = b := by unfold cmpNat at h; split_ifs at h <;> omega
    rw [hab]
  · intro a b d h1 h2; unfold cmpNat at h1 h2 ⊢
    split_ifs at h1 h2 ⊢ <;> omega

theorem cmpLaws_comap {α β : Type} {c : β → β → Int} (h : CmpLaws c) (f : α → β) :
    CmpLaws (fun a b => c (f a) (f b)) :=
  ⟨fun a b => h.cmp3 (f a) (f b),
   fun a b => h.antisym (f a) (f b),
   fun a b hab d => h.eq_congr (f a) (f b) hab (f d),
   fun a b d h1 h2 => h.lt_trans (f a) (f b) (f d) h1 h2⟩

theorem cmpLaws_lexc {α : Type} {f g : α → α → Int} (hf : CmpLaws f)
    (hg : CmpLaws g) : CmpLaws (lexc f g) := by
  have hzero : ∀ a b, f a b = 0 ↔ f b a = 0 := by
    intro a b; have := hf.antisym a b; omega
  constructor
  · intro a b; unfold lexc; split_ifs with h
    · exact hg.cmp3 a b
    · rcases hf.cmp3 a b with h1 | h1 | h1
      · exact Or.inl h1
      · exact absurd h1 h
      · exact Or.inr (Or.inr h1)
  · intro a b; unfold lexc
    by_cases h : f a b = 0
    · rw [if_pos h, if_pos ((hzero a b).mp h)]; exact hg.antisym a b
    · rw [if_neg h, if_neg (fun hh => h ((hzero a b).mpr hh))]
      exact hf.antisym a b
  · intro a b hab d; unfold lexc at hab ⊢
    by_cases h : f a b = 0
    · rw [if_pos h] at hab
      rw [hf.eq_congr a b h d, hg.eq_congr a b hab d]
    · rw [if_neg h] at hab; exact absurd hab h
  · intro a b d h1 h2; unfold lexc at h1 h2 ⊢
    by_cases hab : f a b = 0
    · rw [if_pos hab] at h1
      by_cases hbd : f b d = 0
      · rw [if_pos hbd] at h2
        have had : f a d = 0 := by rw [hf.eq_congr a b hab d]; exact hbd
        rw [if_pos had]; exact hg.lt_trans a b d h1 h2
      · rw [if_neg hbd] at h2
        have had : f a d = -1 := by rw [hf.eq_congr a b hab d]; exact h2
        rw [if_neg (by rw [had]; decide)]; exact had
    · rw [if_neg hab] at h1
      by_cases hbd : f b d = 0
      · have h3 : f b a = f d a := hf.eq_congr b d hbd a
        have h4 := hf.antisym a d
        have h5 := hf.antisym a b
        have had : f a d = -1 := by omega
        rw [if_neg (by rw [had]; decide)]; exact had
      · rw [if_neg hbd] at h2
        have had := hf.lt_trans a b d h1 h2
        rw [if_neg (by rw [had]; decide)]; exact had

theorem cmpLex_cmp3 {α : Type} {c : α → α → Int} (hc : CmpLaws c) :
    ∀ xs ys : List α,
      cmpLex c xs ys = -1 ∨ cmpLex c xs ys = 0 ∨ cmpLex c xs ys = 1 := by
  intro xs
  induction xs with
  | nil => intro ys; cases ys <;> simp [cmpLex]
  | cons x xs ih =>
    intro ys; cases ys with
    | nil => simp [cmpLex]
    | cons y ys =>
      simp only [cmpLex]
      by_cases h : c x y = 0
      · rw [if_pos h]; exact ih ys
      · rw [if_neg h]
        rcases hc.cmp3 x y with h1 | h1 | h1
        · exact Or.inl h1
        · exact absurd h1 h
        · exact Or.inr (Or.inr h1)

theorem cmpLex_antisym {α : Type} {c : α → α → Int} (hc : CmpLaws c) :
    ∀ xs ys : List α, cmpLex c xs ys = - cmpLex c ys xs := by
  intro xs
  induction xs with
  | nil => intro ys; cases ys <;> simp [cmpLex]
  | cons x xs ih =>
    intro ys; cases ys with
    | nil => simp [cmpLex]
    | cons y ys =>
      simp only [cmpLex]
      have hz : c x y = 0 ↔ c y x = 0 := by have := hc.antisym x y; omega
      by_cases h : c x y = 0
      · rw [if_pos h, if_pos (hz.mp h)]; exact ih ys
      · rw [if_neg h, if_neg (fun hh => h (hz.mpr hh))]; exact hc.antisym x y

theorem cmpLex_eq_congr {α : Type} {c : α → α → Int} (hc : CmpLaws c) :
    ∀ xs ys : List α, cmpLex c xs ys = 0 →
      ∀ zs, cmpLex c xs zs = cmpLex c ys zs := by
  intro xs
  induction xs with
  | nil =>
    intro ys h zs
    cases ys with
    | nil => rfl
    | cons y ys => simp [cmpLex] at h
  | cons x xs ih =>
    intro ys h zs
    cases ys with
    | nil => simp [cmpLex] at h
    | cons y ys =>
      simp only [cmpLex] at h
      by_cases hxy : c x y = 0
      · rw [if_pos hxy] at h
        cases zs with
        | nil => simp [cmpLex]
        | cons z zs =>
          simp only [cmpLex]
          rw [hc.eq_congr x y hxy z]
          by_cases hyz : c y z = 0
          · rw [if_pos hyz, if_pos hyz]; exact ih ys h zs
          · rw [if_neg hyz, if_neg hyz]
      · rw [if_neg hxy] at h; exact absurd h hxy

theorem cmpLex_lt_trans {α : Type} {c : α → α → Int} (hc : CmpLaws c) :
    ∀ xs ys zs : List α, cmpLex c xs ys = -1 → cmpLex c ys zs = -1 →
      cmpLex c xs zs = -1 := by
  intro xs
  induction xs with
  | nil =>
    intro ys zs h1 h2
    cases ys with
    | nil => simp [cmpLex] at h1
    | cons y ys =>
      cases zs with
      | nil => simp [cmpLex] at h2
      | cons z zs => simp [cmpLex]
  | cons x xs ih =>
    intro ys zs h1 h2
    cases ys with
    | nil => simp [cmpLex] at h1
    | cons y ys =>
      cases zs with
      | nil => simp [cmpLex] at h2
      | cons z zs =>
        simp only [cmpLex] at h1 h2 ⊢
        by_cases hxy : c x y = 0
        · rw [if_pos hxy] at h1
          by_cases hyz : c y z = 0
          · have hxz : c x z = 0 := by rw [hc.eq_congr x y hxy z]; exact hyz
            rw [if_pos hyz] at h2
            rw [if_pos hxz]; exact ih ys zs h1 h2
          · rw [if_neg hyz] at h2
            have hxz : c x z = -1 := by rw [hc.eq_congr x y hxy z]; exact h2
            rw [if_neg (by rw [hxz]; decide)]; exact hxz
        · rw [if_neg hxy] at h1
          by_cases hyz : c y z = 0
          · have h3 : c y x = c z x := hc.eq_congr y z hyz x
            have h4 := hc.antisym x z
            have h5 := hc.antisym x y
            have hxz : c x z = -1 := by omega
            rw [if_neg (by rw [hxz]; decide)]; exact hxz
          · rw [if_neg hyz] at h2
            have hxz := hc.lt_trans x y z h1 h2
            rw [if_neg (by rw [hxz]; decide)]; exact hxz

theorem cmpLaws_cmpLex {α : Type} {c : α → α → Int} (hc : CmpLaws c) :
    CmpLaws (cmpLex c) :=
  ⟨cmpLex_cmp3 hc, cmpLex_antisym hc, cmpLex_eq_congr hc, cmpLex_lt_trans hc⟩

theorem cmpLaws_cmpChar : CmpLaws cmpChar :=
  cmpLaws_comap cmpLaws_cmpNat Char.toNat

theorem cmpLaws_idCompare : CmpLaws Identifier.Compare := by
  have hlex : CmpLaws (cmpLex cmpChar) := cmpLaws_cmpLex cmpLaws_cmpChar
  constructor
  · intro a b; obtain ⟨ra, na, va⟩ := a; obtain ⟨rb, nb, vb⟩ := b
    cases na <;> cases nb <;> simp only [Identifier.Compare] <;>
      first
      | exact hlex.cmp3 ra rb
      | exact cmpLaws_cmpNat.cmp3 va vb
      | simp
  · intro a b; obtain ⟨ra, na, va⟩ := a; obtain ⟨rb, nb, vb⟩ := b
    cases na <;> cases nb <;> simp only [Identifier.Compare] <;>
      first
      | exact hlex.antisym ra rb
      | exact cmpLaws_cmpNat.antisym va vb
      | decide
  · intro a b h d
    obtain ⟨ra, na, va⟩ := a; obtain ⟨rb, nb, vb⟩ := b; obtain ⟨rd, nd, vd⟩ := d
    cases na <;> cases nb <;> cases nd <;>
      simp only [Identifier.Compare] at h ⊢ <;>
      first
      | rfl
      | exact absurd h (by decide)
      | exact hlex.eq_congr ra rb h rd
      | exact cmpLaws_cmpNat.eq_congr va vb h vd
  · intro a b d h1 h2
    obtain ⟨ra, na, va⟩ := a; obtain ⟨rb, nb, vb⟩ := b; obtain ⟨rd, nd, vd⟩ := d
    cases na <;> cases nb <;> cases nd <;>
      simp only [Identifier.Compare] at h1 h2 ⊢ <;>
      first
      | rfl
      | exact absurd h1 (by decide)
      | exact absurd h2 (by decide)
      | exact hlex.lt_trans ra rb rd h1 h2
      | exact cmpLaws_cmpNat.lt_trans va vb vd h1 h2

theorem cmpLaws_comparePre : CmpLaws comparePre := by
  have hlex : CmpLaws (cmpLex Identifier.Compare) := cmpLaws_cmpLex cmpLaws_idCompare
  constructor
  · intro a b
    cases a <;> cases b <;> simp only [comparePre] <;>
      first
      | exact hlex.cmp3 _ _
      | simp
  · intro a b
    cases a <;> cases b <;> simp only [comparePre] <;>
      first
      | exact hlex.antisym _ _
      | decide
  · intro a b h d
    cases a with
    | nil =>
      cases b with
      | nil => rfl
      | cons y ys => simp only [comparePre] at h; exact absurd h (by decide)
    | cons x xs =>
      cases b with
      | nil => simp only [comparePre] at h; exact absurd h (by decide)
      | cons y ys =>
        simp only [comparePre] at h
        cases d with
        | nil => rfl
        | cons z zs =>
          simp only [comparePre]
          exact hlex.eq_congr _ _ h _
  · intro a b d h1 h2
    cases a with
    | nil =>
      cases b with
      | nil => simp only [comparePre] at h1; exact absurd h1 (by decide)
      | cons y ys => simp only [comparePre] at h1; exact absurd h1 (by decide)
    | cons x xs =>
      cases b with
      | nil =>
        cases d with
        | nil => simp only [comparePre] at h2; exact absurd h2 (by decide)
        | cons z zs => simp only [comparePre] at h2; exact absurd h2 (by decide)
      | cons y ys =>
        cases d with
        | nil => rfl
        | cons z zs =>
          simp only [comparePre] at h1 h2 ⊢
          exact hlex.lt_trans _ _ _ h1 h2

theorem cmpLaws_compareCore : CmpLaws compareCore :=
  cmpLaws_lexc (cmpLaws_comap cmpLaws_cmpNat version.major)
    (cmpLaws_lexc (cmpLaws_comap cmpLaws_cmpNat version.minor)
      (cmpLaws_lexc (cmpLaws_comap cmpLaws_cmpNat version.patch)
        (cmpLaws_comap cmpLaws_comparePre version.preRelease)))

theorem compare_eq_compareCore (a b : version) :
    version.Compare a b = compareCore a b := by
  simp [version.Compare, compareVersion]

theorem isPreRelease_false_iff (v : version) :
    isPreRelease v = false ↔ v.preRelease = [] := by
  simp [isPreRelease, decide_eq_false_iff_not, Nat.not_lt, Nat.le_zero,
    List.length_eq_zero]

theorem isPreRelease_true_iff (v : version) :
    isPreRelease v = true ↔ v.preRelease ≠ [] := by
  simp [isPreRelease, List.length_pos]

theorem scanLoop_at_length (pre : List Identifier) :
    scanLoop pre (Int.ofNat pre.length) = none := by
  rw [scanLoop.eq_def]
  rw [if_pos (show (0 : Int) ≤ Int.ofNat pre.length from Int.ofNat_nonneg pre.length)]
  have h : pre.get? (Int.ofNat pre.length).toNat = none := by
    show pre.get? pre.length = none
    exact List.get?_eq_none.mpr le_rfl
  rw [h]

theorem incPre_panics (v : version) (tag : List Char) (b : Bool)
    (h : v.preRelease ≠ []) : incPre v tag b = none := by
  have hp : isPreRelease v = true := (isPreRelease_true_iff v).mpr h
  simp only [incPre, hp, Bool.not_true, Bool.false_eq_true, if_false,
    scanLoop_at_length]

theorem incPatch_build (v : version) : (incPatch v).build = v.build := by
  simp only [incPatch, resetPreRelease]
  split <;> rfl

theorem incPre_build (v : version) (tag : List Char) (b : Bool) (v' : version)
    (h : incPre v tag b = some v') : v'.build = v.build := by
  by_cases hp : v.preRelease = []
  · have hf : isPreRelease v = false := (isPreRelease_false_iff v).mpr hp
    simp only [incPre, hf, Bool.not_false, if_true, Option.some.injEq] at h
    subst h; rfl
  · rw [incPre_panics v tag b hp] at h; cases h
theorem majorCond_iff (v : version) :
    (v.minor != 0 || v.patch != 0 || !isPreRelease v) = true ↔
      (v.minor ≠ 0 ∨ v.patch ≠ 0 ∨ v.preRelease = []) := by
  simp [Bool.or_eq_true, bne_iff_ne, Bool.not_eq_true, isPreRelease_false_iff,
    or_assoc]

theorem minorCond_iff (v : version) :
    (v.patch != 0 || !isPreRelease v) = true ↔
      (v.patch ≠ 0 ∨ v.preRelease = []) := by
  simp [Bool.or_eq_true, bne_iff_ne, Bool.not_eq_true, isPreRelease_false_iff]

/-- Fixture: `1.2.3`. -/
def v123 : version :=
  { major := 1, minor := 2, patch := 3, preRelease := [], build := [] }

/-- Fixture: `1.2.4`. -/
def v124 : version :=
  { major := 1, minor := 2, patch := 4, preRelease := [], build := [] }

/-- Fixture: `1.2.3-5`. -/
def v123p5 : version :=
  { major := 1, minor := 2, patch := 3, preRelease := [NewIdentifier ['5']],
    build := [] }

/-- Fixture: `1.2.3-alpha.1`. -/
def v123alpha1 : version :=
  { major := 1, minor := 2, patch := 3,
    preRelease := [NewIdentifier "alpha".data, NewIdentifier ['1']],
    build := [] }

/-- Fixture: `1.0.0-5`. -/
def v100p5 : version :=
  { major := 1, minor := 0, patch := 0, preRelease := [NewIdentifier ['5']],
    build := [] }

/-- Fixture: `1.0.0`. -/
def v100 : version :=
  { major := 1, minor := 0, patch := 0, preRelease := [], build := [] }

/-- Fixture: `1.1.0`. -/
def v110 : version :=
  { major := 1, minor := 1, patch := 0, preRelease := [], build := [] }

/-- Fixture: `2.0.0`. -/
def v200 : version :=
  { major := 2, minor := 0, patch := 0, preRelease := [], build := [] }

/-- Fixture: `1.2.4-0`. -/
def v124p0 : version :=
  { major := 1, minor := 2, patch := 4, preRelease := [NewIdentifier ['0']],
    build := [] }

/-- Fixture: `1.2.3-alpha`. -/
def v123alpha : version :=
  { major := 1, minor := 2, patch := 3,
    preRelease := [NewIdentifier "alpha".data], build := [] }

/-- Fixture: `1.3.0`. -/
def v130 : version :=
  { major := 1, minor := 3, patch := 0, preRelease := [], build := [] }

/-- Fixture: `1.2.3+b`. -/
def v123b : version :=
  { major := 1, minor := 2, patch := 3, preRelease := [],
    build := [NewIdentifier ['b']] }

/-- Fixture: `1.2.4+b`. -/
def v124b : version :=
  { major := 1, minor := 2, patch := 4, preRelease := [],
    build := [NewIdentifier ['b']] }

/-- C1: the claim that `Increment` can never itself fail is refuted by the
code: the internal `pre` transition's backward scan starts at
`i = len(preRelease)` and its first read `preRelease[i]` is already out of
range, a runtime panic (modelled as `none`) on every version that is
already a pre-release — here `1.2.3-5` under the internal `pre` kind. -/
theorem C1_pre_scan_faults :
    Increment v123p5 ReleaseType.pre [] false = none := by
  simp only [Increment]
  exact incPre_panics _ _ _ (by decide)

/-- C3: the claim that `Increment("1.2.3-alpha.1", PreRelease, "alpha",
false)` renders `1.2.3-alpha.2` is refuted: the backward scan reads
`preRelease[2]` of a two-element sequence and panics (modelled as
`none`). -/
theorem C3_prerelease_increment_panics :
    Increment (parse "1.2.3-alpha.1".data).1 ReleaseType.PreRelease
      "alpha".data false = none := by
  have hv : (parse "1.2.3-alpha.1".data).1 = v123alpha1 := by decide
  rw [hv]
  have hcond : (!isPreRelease v123alpha1) = false := by decide
  simp only [Increment, hcond, Bool.false_eq_true, if_false]
  exact incPre_panics _ _ _ (by decide)

/-- C4: the `Patch` transition bumps `patch` exactly when the pre-release
sequence is empty, keeps it otherwise, clears the pre-release in both
cases, and touches nothing else (stated away from `uint64` overflow, which
the spec treats as undefined). -/
theorem C4_patch_transition (v : version) (tag : List Char) (b : Bool)
    (h : v.preRelease = [] → v.patch + 1 < u64Size) :
    Increment v ReleaseType.Patch tag b =
      some { v with
        patch := if v.preRelease = [] then v.patch + 1 else v.patch,
        preRelease := [] } := by
  simp only [Increment, incPatch, resetPreRelease]
  by_cases hp : v.preRelease = []
  · have h1 : isPreRelease v = false := (isPreRelease_false_iff v).mpr hp
    simp [h1, hp, Nat.mod_eq_of_lt (h hp)]
  · have h1 : isPreRelease v = true := (isPreRelease_true_iff v).mpr hp
    simp [h1, hp]

/-- Witness for C4: `1.2.3` becomes `1.2.4` and `1.2.3-5` becomes
`1.2.3`. -/
theorem C4_patch_transition_witness :
    Increment v123 ReleaseType.Patch [] false = some v124 ∧
    Increment v123p5 ReleaseType.Patch [] false = some v123 :=
  ⟨(C4_patch_transition v123 [] false (by decide)).trans (by decide),
   (C4_patch_transition v123p5 [] false (by decide)).trans (by decide)⟩

/-- C5: the `Major` transition bumps `major` exactly when minor is
non-zero, or patch is non-zero, or the pre-release sequence is empty;
otherwise it leaves `major`; in both cases it zeroes minor and patch and
clears the pre-release (stated away from `uint64` overflow). -/
theorem C5_major_transition (v : version) (tag : List Char) (b : Bool)
    (h : (v.minor ≠ 0 ∨ v.patch ≠ 0 ∨ v.preRelease = []) →
      v.major + 1 < u64Size) :
    Increment v ReleaseType.Major tag b =
      some { v with
        major := if v.minor ≠ 0 ∨ v.patch ≠ 0 ∨ v.preRelease = []
          then v.major + 1 else v.major,
        minor := 0, patch := 0, preRelease := [] } := by
  simp only [Increment]
  by_cases hc : v.minor ≠ 0 ∨ v.patch ≠ 0 ∨ v.preRelease = []
  · rw [if_pos ((majorCond_iff v).mpr hc), if_pos hc,
      Nat.mod_eq_of_lt (h hc)]
  · rw [if_neg (fun hb => hc ((majorCond_iff v).mp hb)), if_neg hc]

/-- Witness for C5: `1.0.0-5` becomes `1.0.0` (no bump) while `1.1.0`
becomes `2.0.0`. -/
theorem C5_major_transition_witness :
    Increment v100p5 ReleaseType.Major [] false = some v100 ∧
    Increment v110 ReleaseType.Major [] false = some v200 :=
  ⟨(C5_major_transition v100p5 [] false (by decide)).trans (by decide),
   (C5_major_transition v110 [] false (by decide)).trans (by decide)⟩

/-- Counterexample for C2: on `1.2.3` with kind `PreRelease`, tag `alpha`
and `identifierBase = false`, the code renders `1.2.4-0` — not the claimed
`1.2.4-alpha.0` — because the tag handling is nested inside the
already-a-pre-release branch and never runs for a fresh pre-release. -/
theorem C2_counterexample :
    (Increment v123 ReleaseType.PreRelease "alpha".data false).map
        version.String = some "1.2.4-0".data ∧
    ("1.2.4-0".data : List Char) ≠ "1.2.4-alpha.0".data :=
  ⟨by decide, by decide⟩

/-- C2 (amended): for a version that is not a pre-release, `Increment`
with kind `PreRelease` bumps `patch` and sets the pre-release to the base
numeral alone, whatever tag is supplied. -/
theorem C2_prerelease_fresh (v : version) (tag : List Char) (b : Bool)
    (h1 : v.preRelease = []) (h2 : v.patch + 1 < u64Size) :
    Increment v ReleaseType.PreRelease tag b =
      some { v with
        patch := v.patch + 1,
        preRelease := [NewIdentifier (if b then ['1'] else ['0'])] } := by
  have hf : isPreRelease v = false := (isPreRelease_false_iff v).mpr h1
  simp only [Increment, hf, Bool.not_false, if_true]
  have hpatch : incPatch v = { v with patch := v.patch + 1, preRelease := [] } := by
    simp only [incPatch, resetPreRelease, hf, Bool.not_false, if_true]
    simp [Nat.mod_eq_of_lt h2]
  rw [hpatch]
  have hf2 : isPreRelease
      { v with patch := v.patch + 1, preRelease := [] } = false := by
    simp [isPreRelease]
  simp only [incPre, hf2, Bool.not_false, if_true]

/-- Witness for the amended C2: `1.2.3` with `PreRelease`/`alpha`/`false`
becomes `1.2.4-0`. -/
theorem C2_prerelease_fresh_witness :
    Increment v123 ReleaseType.PreRelease "alpha".data false = some v124p0 :=
  (C2_prerelease_fresh v123 "alpha".data false (by decide) (by decide)).trans
    (by decide)

/-- C10: whenever `Increment` completes, the build identifier sequence of
the result is exactly that of the input — no transition touches the build
field. -/
theorem C10_increment_preserves_build (v : version) (rt : ReleaseType)
    (tag : List Char) (b : Bool) (v' : version)
    (h : Increment v rt tag b = some v') : v'.build = v.build := by
  cases rt <;> simp only [Increment] at h
  · simp only [Option.some.injEq] at h; subst h; split <;> rfl
  · simp only [Option.some.injEq] at h; subst h; split <;> rfl
  · simp only [Option.some.injEq] at h; subst h; exact incPatch_build v
  · have h2 := incPre_build _ _ _ _ h; exact h2
  · have h2 := incPre_build _ _ _ _ h; exact h2
  · have h2 := incPre_build _ _ _ _ h; exact h2.trans (incPatch_build _)
  · have h2 := incPre_build _ _ _ _ h
    refine h2.trans ?_
    split
    · exact incPatch_build v
    · rfl
  · exact incPre_build _ _ _ _ h

/-- Witness for C10 at `1.2.3+b` under `Patch`. -/
theorem C10_increment_preserves_build_witness :
    version.build v124b = version.build v123b :=
  C10_increment_preserves_build v123b ReleaseType.Patch [] false v124b
    (by decide)

/-- C9: `Compare` is a strict total order: every result is one of `-1`,
`0`, `1`; it is antisymmetric; and strict comparison is transitive. -/
theorem C9_compare_strict_total_order (a b c : version) :
    (version.Compare a b = -1 ∨ version.Compare a b = 0 ∨
      version.Compare a b = 1) ∧
    version.Compare a b = - version.Compare b a ∧
    (version.Compare a b = -1 → version.Compare b c = -1 →
      version.Compare a c = -1) := by
  simp only [compare_eq_compareCore]
  exact ⟨cmpLaws_compareCore.cmp3 a b, cmpLaws_compareCore.antisym a b,
    cmpLaws_compareCore.lt_trans a b c⟩

/-- Witness for C9: transitivity applied at
`1.2.3-alpha < 1.2.3 < 1.3.0`. -/
theorem C9_compare_strict_total_order_witness :
    version.Compare v123alpha v130 = -1 :=
  (C9_compare_strict_total_order v123alpha v123 v130).2.2
    (by decide) (by decide)

/-- Counterexample for C6: the major group of
`18446744073709551616.0.0` (that is `2 ^ 64`) exceeds the `uint64` width,
the string matches the grammar, and yet `parse` reports no error — the
major field silently saturates to `2 ^ 64 - 1`. -/
theorem C6_counterexample :
    u64Size ≤ digitsToNat "18446744073709551616".data ∧
    (matchSemver "18446744073709551616.0.0".data).isSome = true ∧
    (parse "18446744073709551616.0.0".data).2 = none ∧
    (parse "18446744073709551616.0.0".data).1.major = u64Max :=
  ⟨by decide, by decide, by decide, by decide⟩

/-- C6 (amended): on any grammar-matching input `parse` never reports an
error; each numeric field is the group's value when it fits in 64 bits
and saturates to `2 ^ 64 - 1` otherwise (`strconv.ParseUint`'s range
error is discarded). -/
theorem C6_parse_saturates (s ma mi pa pre bld : List Char)
    (h : matchSemver s = some (ma, mi, pa, pre, bld)) :
    (parse s).2 = none ∧
    (parse s).1.major =
      (if digitsToNat ma < u64Size then digitsToNat ma else u64Max) ∧
    (parse s).1.minor =
      (if digitsToNat mi < u64Size then digitsToNat mi else u64Max) ∧
    (parse s).1.patch =
      (if digitsToNat pa < u64Size then digitsToNat pa else u64Max) := by
  simp only [parse, h, parseUint64]
  refine ⟨trivial, ?_, ?_, ?_⟩ <;> split <;> rfl

/-- Witness for the amended C6 at the overflowing input. -/
theorem C6_parse_saturates_witness :
    (parse "18446744073709551616.0.0".data).2 = none ∧
    (parse "18446744073709551616.0.0".data).1.major = u64Max := by
  have h := C6_parse_saturates "18446744073709551616.0.0".data
    "18446744073709551616".data "0".data "0".data [] [] (by decide)
  exact ⟨h.1, h.2.1.trans (by decide)⟩

/-- C7: `parse` reports an error exactly when the input does not match the
grammar; on failure the returned version is zero-valued, and `NewVersion`
swallows the error and returns that zero-valued handle. -/
theorem C7_parse_error_semantics (s : List Char) :
    ((parse s).2 ≠ none ↔ matchSemver s = none) ∧
    (matchSemver s = none →
      (parse s).1 = zeroVersion ∧ NewVersion s = zeroVersion) := by
  cases h : matchSemver s with
  | none => simp [parse, NewVersion, h]
  | some g =>
    obtain ⟨ma, mi, pa, pre, bld⟩ := g
    simp [parse, NewVersion, h]

/-- Witness for C7: `not-a-version` fails closed and `1.2` (missing
patch) reports an error. -/
theorem C7_parse_error_semantics_witness :
    (parse "not-a-version".data).1 = zeroVersion ∧
    NewVersion "not-a-version".data = zeroVersion ∧
    (parse "1.2".data).2 ≠ none :=
  ⟨((C7_parse_error_semantics "not-a-version".data).2 (by decide)).1,
   ((C7_parse_error_semantics "not-a-version".data).2 (by decide)).2,
   (C7_parse_error_semantics "1.2".data).1.mpr (by decide)⟩

theorem splitFirst_sound (sep : Char) :
    ∀ s l r, splitFirst sep s = (l, r) →
      s = l ++ (match r with | none => [] | some t => sep :: t) := by
  intro s
  induction s with
  | nil =>
    intro l r h
    simp only [splitFirst] at h
    cases h
    rfl
  | cons c cs ih =>
    intro l r h
    simp only [splitFirst] at h
    by_cases hc : c = sep
    · rw [if_pos hc] at h
      cases h
      rw [hc]
      rfl
    · rw [if_neg hc] at h
      rcases hs : splitFirst sep cs with ⟨l2, r2⟩
      rw [hs] at h
      cases h
      rw [List.cons_append]
      exact congrArg (List.cons c) (ih l2 r2 hs)

theorem splitOnDotAux_ne_nil (c : Char) (r : List (List Char)) :
    splitOnDotAux c r ≠ [] := by
  cases r with
  | nil => simp [splitOnDotAux]
  | cons t ts =>
    simp only [splitOnDotAux]
    split <;> simp

theorem splitOnDot_ne_nil (s : List Char) : splitOnDot s ≠ [] := by
  cases s with
  | nil => simp [splitOnDot]
  | cons c cs =>
    simp only [splitOnDot]
    exact splitOnDotAux_ne_nil c _

/-- The `.`-separated continuation of a token-sequence rendering, the
string-level mirror of `joinTail`. -/
def joinTailStrs : List (List Char) → List Char
  | [] => []
  | t :: ts => '.' :: (t ++ joinTailStrs ts)

/-- Tokens joined with `.`, the string-level mirror of
`joinIdentifiers`. -/
def joinDotStrs : List (List Char) → List Char
  | [] => []
  | t :: ts => t ++ joinTailStrs ts

theorem joinDotStrs_splitOnDot (s : List Char) :
    joinDotStrs (splitOnDot s) = s := by
  induction s with
  | nil => rfl
  | cons c cs ih =>
    simp only [splitOnDot]
    cases hs : splitOnDot cs with
    | nil => exact absurd hs (splitOnDot_ne_nil cs)
    | cons t ts =>
      rw [hs] at ih
      simp only [joinDotStrs] at ih
      by_cases hc : c = '.'
      · subst hc
        simp [splitOnDotAux, joinDotStrs, joinTailStrs, ih]
      · simp only [splitOnDotAux, if_neg hc, joinDotStrs]
        rw [List.cons_append, ih]

theorem NewIdentifier_Raw (t : List Char) : (NewIdentifier t).Raw = t := by
  unfold NewIdentifier
  split <;> rfl

theorem joinTail_map (ts : List (List Char)) :
    joinTail (ts.map NewIdentifier) = joinTailStrs ts := by
  induction ts with
  | nil => rfl
  | cons t ts ih =>
    simp only [List.map, joinTail, joinTailStrs, NewIdentifier_Raw, ih]

theorem parseIdentifiers_ne_nil (p : List Char) : parseIdentifiers p ≠ [] := by
  unfold parseIdentifiers
  intro h
  exact splitOnDot_ne_nil p (List.map_eq_nil_iff.mp h)

theorem parseIdentifiers_render (p : List Char) :
    ∀ x xs, parseIdentifiers p = x :: xs → x.Raw ++ joinTail xs = p := by
  intro x xs h
  unfold parseIdentifiers at h
  cases hs : splitOnDot p with
  | nil => exact absurd hs (splitOnDot_ne_nil p)
  | cons t ts =>
    rw [hs] at h
    simp only [List.map] at h
    injection h with h1 h2
    subst h1
    subst h2
    rw [NewIdentifier_Raw, joinTail_map]
    have h3 := joinDotStrs_splitOnDot p
    rw [hs] at h3
    simpa only [joinDotStrs] using h3

theorem digitsToNat_concat (ds : List Char) (c : Char) :
    digitsToNat (ds ++ [c]) = 10 * digitsToNat ds + dval c := by
  unfold digitsToNat
  rw [List.foldl_append]
  rfl

theorem digitsToNat_aux_ge (t : List Char) :
    ∀ a : Nat, 1 ≤ a → 1 ≤ t.foldl (fun x c => 10 * x + dval c) a := by
  induction t with
  | nil => intro a ha; simpa using ha
  | cons c cs ih =>
    intro a ha
    simp only [List.foldl]
    exact ih _ (by omega)

theorem digitsToNat_pos (d : List Char) (hd : d ≠ [])
    (hall : d.all isDigitChar = true) (hhead : d.head? ≠ some '0') :
    1 ≤ digitsToNat d := by
  cases d with
  | nil => exact absurd rfl hd
  | cons c cs =>
    have hc : isDigitChar c = true := by
      simp only [List.all_cons, Bool.and_eq_true] at hall
      exact hall.1
    have hc0 : c ≠ '0' := fun h => hhead (by simp [h])
    have h48 : 48 ≤ c.toNat ∧ c.toNat ≤ 57 := by
      simpa [isDigitChar, Bool.and_eq_true, decide_eq_true_eq] using hc
    have hne : c.toNat ≠ 48 := by
      intro h
      apply hc0
      have h2 : c = Char.ofNat 48 := by rw [← h, Char.ofNat_toNat]
      rw [h2]
    have hdval : 1 ≤ dval c := by unfold dval; omega
    unfold digitsToNat
    simp only [List.foldl]
    exact digitsToNat_aux_ge cs (10 * 0 + dval c) (by omega)

theorem natToDigitsCore_spec :
    ∀ fuel n acc, n < fuel →
      natToDigitsCore fuel n acc = natToDigits n ++ acc := by
  intro fuel
  induction fuel using Nat.strong_induction_on with
  | _ fuel ih =>
    intro n acc hn
    cases fuel with
    | zero => exact absurd hn (Nat.not_lt_zero n)
    | succ f =>
      simp only [natToDigitsCore]
      by_cases h10 : n < 10
      · rw [if_pos h10]
        unfold natToDigits
        simp only [natToDigitsCore, if_pos h10]
        rfl
      · rw [if_neg h10]
        have hf : n / 10 < f := by
          have h1 : 10 * (n / 10) ≤ n := Nat.mul_div_le n 10
          have h2 : 1 ≤ n / 10 := by
            rw [Nat.le_div_iff_mul_le (by omega : 0 < 10)]
            omega
          omega
        rw [ih f (by omega) (n / 10) _ hf]
        have hr : natToDigits n = natToDigits (n / 10) ++ [digitChar (n % 10)] := by
          show natToDigitsCore (n + 1) n [] = _
          rw [show natToDigitsCore (n + 1) n [] =
              natToDigitsCore n (n / 10) (digitChar (n % 10) :: []) from by
            simp only [natToDigitsCore]
            rw [if_neg h10]]
          rw [ih n (by omega) (n / 10) _
            (Nat.div_lt_self (by omega) (by omega))]
        rw [hr, List.append_assoc]
        rfl

theorem natToDigits_lt10 (n : Nat) (h : n < 10) :
    natToDigits n = [digitChar n] := by
  unfold natToDigits
  simp [natToDigitsCore, h]

theorem natToDigits_ge10 (n : Nat) (h : 10 ≤ n) :
    natToDigits n = natToDigits (n / 10) ++ [digitChar (n % 10)] := by
  show natToDigitsCore (n + 1) n [] = _
  rw [show natToDigitsCore (n + 1) n [] =
      natToDigitsCore n (n / 10) (digitChar (n % 10) :: []) from by
    simp only [natToDigitsCore]
    rw [if_neg (by omega)]]
  rw [natToDigitsCore_spec n (n / 10) _
    (Nat.div_lt_self (by omega) (by omega))]

theorem digitChar_dval (c : Char) (h : isDigitChar c = true) :
    digitChar (dval c) = c := by
  have h48 : 48 ≤ c.toNat ∧ c.toNat ≤ 57 := by
    simpa [isDigitChar, Bool.and_eq_true, decide_eq_true_eq] using h
  unfold digitChar dval
  rw [show 48 + (c.toNat - 48) = c.toNat by omega]
  exact Char.ofNat_toNat c

theorem natToDigits_digitsToNat :
    ∀ d : List Char, d ≠ [] → d.all isDigitChar = true →
      (d.length = 1 ∨ d.head? ≠ some '0') →
      natToDigits (digitsToNat d) = d := by
  intro d
  induction d using List.reverseRecOn with
  | nil => intro hd _ _; exact absurd rfl hd
  | append_singleton ds c ih =>
    intro _ hall hlead
    have hc : isDigitChar c = true := by
      simp only [List.all_append, List.all_cons, List.all_nil,
        Bool.and_eq_true] at hall
      exact hall.2.1
    have hcall : ds.all isDigitChar = true := by
      simp only [List.all_append, Bool.and_eq_true] at hall
      exact hall.1
    have hdv : dval c ≤ 9 := by
      have h2 : 48 ≤ c.toNat ∧ c.toNat ≤ 57 := by
        simpa [isDigitChar, Bool.and_eq_true, decide_eq_true_eq] using hc
      unfold dval; omega
    rw [digitsToNat_concat]
    cases ds with
    | nil =>
      rw [show 10 * digitsToNat [] + dval c = dval c from by
        simp [digitsToNat]]
      rw [natToDigits_lt10 _ (by omega), digitChar_dval c hc]
      rfl
    | cons d0 ds2 =>
      have hd0 : (d0 :: ds2).head? ≠ some '0' := by
        rcases hlead with h1 | h1
        · exfalso
          simp [List.length_append] at h1
        · intro hh
          apply h1
          simp only [List.head?] at hh
          simp [List.cons_append, List.head?, hh]
      have hpos := digitsToNat_pos (d0 :: ds2) (by simp) hcall hd0
      have hIH := ih (by simp) hcall (Or.inr hd0)
      have h10 : 10 ≤ 10 * digitsToNat (d0 :: ds2) + dval c := by omega
      have hdiv : (10 * digitsToNat (d0 :: ds2) + dval c) / 10 =
          digitsToNat (d0 :: ds2) := by omega
      have hmod : (10 * digitsToNat (d0 :: ds2) + dval c) % 10 = dval c := by
        omega
      rw [natToDigits_ge10 _ h10, hdiv, hmod, hIH, digitChar_dval c hc]

theorem numericNZ_elim (s : List Char) (h : numericNZ s = true) :
    s ≠ [] ∧ s.all isDigitChar = true ∧
      (s.length = 1 ∨ s.head? ≠ some '0') := by
  simp only [numericNZ, Bool.and_eq_true, Bool.or_eq_true, beq_iff_eq,
    bne_iff_ne, Bool.not_eq_true'] at h
  refine ⟨?_, h.1.2, ?_⟩
  · intro he
    subst he
    simp at h
  · rcases h.2 with h2 | h2
    · exact Or.inl h2
    · exact Or.inr h2

theorem matchSemver_inv {s ma mi pa pre bld : List Char}
    (h : matchSemver s = some (ma, mi, pa, pre, bld)) :
    splitOnDot (splitFirst '-' (splitFirst '+' s).1).1 = [ma, mi, pa] ∧
    numericNZ ma = true ∧ numericNZ mi = true ∧ numericNZ pa = true ∧
    preGroupOk (splitFirst '-' (splitFirst '+' s).1).2 = true ∧
    buildGroupOk (splitFirst '+' s).2 = true ∧
    pre = ((splitFirst '-' (splitFirst '+' s).1).2).getD [] ∧
    bld = ((splitFirst '+' s).2).getD [] := by
  unfold matchSemver at h
  split at h
  · split at h
    · rename_i ma2 mi2 pa2 heq hguard
      simp only [Option.some.injEq, Prod.mk.injEq] at h
      obtain ⟨h1, h2, h3, h4, h5⟩ := h
      subst h1
      subst h2
      subst h3
      subst h4
      subst h5
      simp only [Bool.and_eq_true] at hguard
      exact ⟨heq, hguard.1.1.1.1, hguard.1.1.1.2, hguard.1.1.2,
        hguard.1.2, hguard.2, rfl, rfl⟩
    · exact absurd h (by simp)
  · exact absurd h (by simp)

theorem joinIdentifiers_parseIdentifiers (p : List Char) :
    joinIdentifiers (parseIdentifiers p) = p := by
  cases hpi : parseIdentifiers p with
  | nil => exact absurd hpi (parseIdentifiers_ne_nil p)
  | cons x xs =>
    simp only [joinIdentifiers]
    exact parseIdentifiers_render p x xs hpi

/-- Counterexample for C8: `18446744073709551616.0.0` matches the grammar
but does not round-trip — its major group saturates during parsing, so
rendering yields `18446744073709551615.0.0`. -/
theorem C8_counterexample :
    (matchSemver "18446744073709551616.0.0".data).isSome = true ∧
    version.String (parse "18446744073709551616.0.0".data).1 ≠
      "18446744073709551616.0.0".data :=
  ⟨by decide, by decide⟩

/-- C8 (amended): for every string matching the grammar whose three
numeric groups fit in 64 bits, rendering the parsed version with
`String()` yields the input back exactly. -/
theorem C8_parse_String_roundtrip (s ma mi pa pre bld : List Char)
    (h : matchSemver s = some (ma, mi, pa, pre, bld))
    (hma : digitsToNat ma < u64Size) (hmi : digitsToNat mi < u64Size)
    (hpa : digitsToNat pa < u64Size) :
    version.String (parse s).1 = s := by
  obtain ⟨hsplit3, hnma, hnmi, hnpa, hpreok, hbldok, hpre, hbld⟩ :=
    matchSemver_inv h
  rcases hP : splitFirst '+' s with ⟨rest, bopt⟩
  have hP1 : (splitFirst '+' s).1 = rest := by rw [hP]
  have hP2 : (splitFirst '+' s).2 = bopt := by rw [hP]
  rw [hP1] at hsplit3 hpreok hpre
  rw [hP2] at hbldok hbld
  rcases hC : splitFirst '-' rest with ⟨core, popt⟩
  have hC1 : (splitFirst '-' rest).1 = core := by rw [hC]
  have hC2 : (splitFirst '-' rest).2 = popt := by rw [hC]
  rw [hC1] at hsplit3
  rw [hC2] at hpreok hpre
  have hs_eq := splitFirst_sound '+' s rest bopt hP
  have hrest_eq := splitFirst_sound '-' rest core popt hC
  have hcore_eq : core = ma ++ '.' :: (mi ++ '.' :: pa) := by
    have h1 := joinDotStrs_splitOnDot core
    rw [hsplit3] at h1
    simp only [joinDotStrs, joinTailStrs, List.append_nil] at h1
    exact h1.symm
  obtain ⟨hma_ne, hma_all, hma_lead⟩ := numericNZ_elim ma hnma
  obtain ⟨hmi_ne, hmi_all, hmi_lead⟩ := numericNZ_elim mi hnmi
  obtain ⟨hpa_ne, hpa_all, hpa_lead⟩ := numericNZ_elim pa hnpa
  have hRma : natToDigits (parseUint64 ma).1 = ma := by
    simp only [parseUint64, if_pos hma]
    exact natToDigits_digitsToNat ma hma_ne hma_all hma_lead
  have hRmi : natToDigits (parseUint64 mi).1 = mi := by
    simp only [parseUint64, if_pos hmi]
    exact natToDigits_digitsToNat mi hmi_ne hmi_all hmi_lead
  have hRpa : natToDigits (parseUint64 pa).1 = pa := by
    simp only [parseUint64, if_pos hpa]
    exact natToDigits_digitsToNat pa hpa_ne hpa_all hpa_lead
  simp only [parse, h, version.String, versionBase]
  rw [hRma, hRmi, hRpa]
  rw [hs_eq, hrest_eq, hcore_eq]
  cases popt with
  | none =>
    have hpre0 : pre = [] := by simpa using hpre
    subst hpre0
    cases bopt with
    | none =>
      have hbld0 : bld = [] := by simpa using hbld
      subst hbld0
      simp
    | some b =>
      have hbldb : bld = b := by simpa using hbld
      subst hbldb
      have hbne : bld ≠ [] := by
        intro he
        rw [he] at hbldok
        simp [buildGroupOk, splitOnDot, splitOnDotAux, buildIdOk] at hbldok
      have hbemp : bld.isEmpty = false := by
        cases hbb : bld with
        | nil => exact absurd hbb hbne
        | cons a l => rfl
      have hbfield : (if !bld.isEmpty then parseIdentifiers bld else []) =
          parseIdentifiers bld := by
        simp [hbemp]
      rw [hbfield,
        if_pos (List.length_pos.mpr (parseIdentifiers_ne_nil bld)),
        joinIdentifiers_parseIdentifiers]
      simp
  | some p =>
    have hprep : pre = p := by simpa using hpre
    subst hprep
    have hpne : pre ≠ [] := by
      intro he
      rw [he] at hpreok
      simp [preGroupOk, splitOnDot, splitOnDotAux, preIdOk] at hpreok
    have hpemp : pre.isEmpty = false := by
      cases hpp : pre with
      | nil => exact absurd hpp hpne
      | cons a l => rfl
    have hpfield : (if !pre.isEmpty then parseIdentifiers pre else []) =
        parseIdentifiers pre := by
      simp [hpemp]
    rw [hpfield,
      if_pos (List.length_pos.mpr (parseIdentifiers_ne_nil pre)),
      joinIdentifiers_parseIdentifiers]
    cases bopt with
    | none =>
      have hbld0 : bld = [] := by simpa using hbld
      subst hbld0
      simp
    | some b =>
      have hbldb : bld = b := by simpa using hbld
      subst hbldb
      have hbne : bld ≠ [] := by
        intro he
        rw [he] at hbldok
        simp [buildGroupOk, splitOnDot, splitOnDotAux, buildIdOk] at hbldok
      have hbemp : bld.isEmpty = false := by
        cases hbb : bld with
        | nil => exact absurd hbb hbne
        | cons a l => rfl
      have hbfield : (if !bld.isEmpty then parseIdentifiers bld else []) =
          parseIdentifiers bld := by
        simp [hbemp]
      rw [hbfield,
        if_pos (List.length_pos.mpr (parseIdentifiers_ne_nil bld)),
        joinIdentifiers_parseIdentifiers]
      simp

/-- Witness for the amended C8 at `1.2.3-alpha.1+exp.sha`. -/
theorem C8_parse_String_roundtrip_witness :
    version.String (parse "1.2.3-alpha.1+exp.sha".data).1 =
      "1.2.3-alpha.1+exp.sha".data :=
  C8_parse_String_roundtrip "1.2.3-alpha.1+exp.sha".data "1".data "2".data
    "3".data "alpha.1".data "exp.sha".data (by decide) (by decide)
    (by decide) (by decide)
